import Mathlib

/-!
Verification of the workflow execution engine (src/workflow_engine.py and
src/models.py) against its natural-language specification.

Modelling conventions:
- Python strings are Lean `String`s; the character-scanning primitives of the
  resolver (regex token extraction, `str.replace`, `str.split`) are embedded as
  fuel-indexed structural recursions over `List Char` so that every definition
  is executable and reduces in the kernel.  The fuel is always instantiated
  with the length of the scanned list, which is an upper bound on the number
  of scanning steps, so the fuel never runs out on the wrapper entry points.
- Python dicts whose only observable operations are key lookup and insertion
  (the per-run result map, the variable mapping) are association lists; an
  insertion conses in front, so lookup returns the most recent binding.
- Wall-clock timestamps (start_time, end_time, execution_time) are abstracted:
  the engine only writes them and never branches on them.  String timestamp
  fields are carried as `""`; the float execution_time field is omitted.
- The process boundary (subprocess.run, shutil.which, Python eval in the
  condition evaluator) is a parameter of the embedding: `EngineOracles` gives
  the outcome of each external call, and the engine code that consumes those
  outcomes is translated faithfully.
-/

/-- StepStatus enumeration from src/models.py. -/
inductive StepStatus where
  | pending
  | running
  | success
  | failed
  | skipped
  | timeout
deriving DecidableEq, Repr

/-- The string value of each status member (models.py assigns these). -/
def StepStatus.value : StepStatus → String
  | .pending => "pending"
  | .running => "running"
  | .success => "success"
  | .failed => "failed"
  | .skipped => "skipped"
  | .timeout => "timeout"

/-- ExecutionMode enumeration from src/models.py. -/
inductive ExecutionMode where
  | sequential
  | parallel
deriving DecidableEq, Repr

/-- WorkflowStep dataclass from src/models.py.  Fields the engine never reads
(description, input_files, output_files, step_type, custom_script, notes,
pos_x, pos_y) are omitted; retry_count is declared in the source but unused
by the engine, and is kept for fidelity. -/
structure WorkflowStep where
  id : String
  name : String := ""
  command : String := ""
  working_directory : String := ""
  environment_vars : List (String × String) := []
  timeout : Int := 300
  retry_count : Int := 0
  dependencies : List String := []
  enabled : Bool := true
  condition_type : String := "none"
  condition_expression : String := ""
deriving DecidableEq, Repr

/-- Workflow dataclass from src/models.py (engine-relevant fields). -/
structure Workflow where
  name : String := ""
  steps : List WorkflowStep := []
  execution_mode : ExecutionMode := .sequential
  global_timeout : Int := 3600
  global_env_vars : List (String × String) := []
deriving DecidableEq, Repr

/-- ExecutionResult dataclass from src/models.py.  The float execution_time
field is omitted (wall-clock measurement); timestamp strings are abstracted
to `""` at every write site. -/
structure ExecutionResult where
  step_id : String
  status : StepStatus
  start_time : String := ""
  end_time : String := ""
  stdout : String := ""
  stderr : String := ""
  exit_code : Int := 0
  error_message : String := ""
deriving DecidableEq, Repr

/-! Character-level primitives used by VariableResolver. -/

/-- Fueled worker for `replaceAll`.  When fuel runs out the remaining text is
returned unchanged; the wrapper supplies fuel equal to the text length, which
is enough for every step of the scan. -/
def replaceAllF (pat rep : List Char) : Nat → List Char → List Char
  | 0, s => s
  | _ + 1, [] => []
  | fuel + 1, c :: rest =>
    if pat ≠ [] ∧ pat.isPrefixOf (c :: rest) then
      rep ++ replaceAllF pat rep fuel ((c :: rest).drop pat.length)
    else
      c :: replaceAllF pat rep fuel rest

/-- Python `str.replace(pat, rep)`: replace every non-overlapping occurrence
of `pat`, scanning left to right.  (The engine never calls it with an empty
pattern, so the Python empty-pattern corner is irrelevant.) -/
def replaceAll (pat rep s : List Char) : List Char :=
  replaceAllF pat rep s.length s

/-- Fueled worker for `findTokens`. -/
def findTokensF : Nat → List Char → List (List Char)
  | 0, _ => []
  | fuel + 1, s =>
    match s with
    | [] => []
    | c :: rest =>
      if c = '{' then
        let tok := rest.takeWhile (fun d => d ≠ '}')
        if tok ≠ [] ∧ tok.length < rest.length then
          tok :: findTokensF fuel (rest.drop (tok.length + 1))
        else
          findTokensF fuel rest
      else
        findTokensF fuel rest

/-- Python `re.findall` of the token pattern (open brace, one or more
non-close-brace characters, close brace) used by VariableResolver.resolve
and validate_variables: the list of token bodies, left to right,
non-overlapping. -/
def findTokens (s : List Char) : List (List Char) :=
  findTokensF s.length s

/-- Python `pat in s` substring test. -/
def containsSubstr (pat : List Char) : List Char → Bool
  | [] => pat.isEmpty
  | c :: rest => pat.isPrefixOf (c :: rest) || containsSubstr pat rest

/-- Fueled worker for `splitWs`. -/
def splitWsF : Nat → List Char → List String
  | 0, _ => []
  | fuel + 1, s =>
    match s with
    | [] => []
    | c :: rest =>
      if c.isWhitespace then splitWsF fuel rest
      else
        let tok := rest.takeWhile (fun d => ¬ d.isWhitespace)
        String.mk (c :: tok) :: splitWsF fuel (rest.drop tok.length)

/-- Python `str.split()` with no argument: split on runs of whitespace,
dropping empty pieces. -/
def splitWs (s : List Char) : List String :=
  splitWsF s.length s

/-- Python `var.split(".", 1)` under the assumption that a dot is present:
the part before the first dot and everything after it. -/
def splitDot1 (v : String) : String × String :=
  (String.mk (v.data.takeWhile (fun d => d ≠ '.')),
   String.mk (v.data.drop ((v.data.takeWhile (fun d => d ≠ '.')).length + 1)))

/-! Association-list operations standing in for Python dicts. -/

/-- Dict lookup on an association list (most recent binding first). -/
def varLookup (vars : List (String × String)) (k : String) : Option String :=
  (vars.find? (fun p => p.1 = k)).map (fun p => p.2)

/-- Lookup in the per-run result map. -/
def lookupResult (m : List (String × ExecutionResult)) (k : String) :
    Option ExecutionResult :=
  (m.find? (fun p => p.1 = k)).map (fun p => p.2)

/-- Python dict merge of global and step variables: the keys of the first
dict, with the second dict overriding values, followed by the keys only the
second dict has.  Matches the key iteration order of the merged dict. -/
def mergeVars (a b : List (String × String)) : List (String × String) :=
  (a.map (fun p => (p.1, (varLookup b p.1).getD p.2))) ++
    b.filter (fun p => (varLookup a p.1).isNone)

/-! VariableResolver (src/workflow_engine.py lines 23-93). -/

/-- The resolver state: merged variables, a read view of the live result map
and the full step list of the workflow. -/
structure VariableResolver where
  vars : List (String × String)
  execution_results : List (String × ExecutionResult)
  workflow_steps : List WorkflowStep
deriving Repr

/-- The id list of the workflow steps, in declaration order. -/
def stepIds (steps : List WorkflowStep) : List String :=
  steps.map (fun s => s.id)

/-- The name-to-id dict built by the resolver constructor; a later step with
a duplicate name overrides an earlier one. -/
def stepNameToId (steps : List WorkflowStep) (n : String) : Option String :=
  (steps.reverse.find? (fun s => s.name = n)).map (fun s => s.id)

/-- Python truthiness of the optional current_step_id argument: None and the
empty string are falsy. -/
def optTruthy : Option String → Bool
  | none => false
  | some s => s ≠ ""

/-- Python `list.index` combined with the surrounding guards of the
previous_step branch: the id immediately before the first occurrence of `c`
in `ids`, if `c` occurs and is not first. -/
def prevStepId (ids : List String) (c : String) : Option String :=
  if c ∈ ids then
    let i := ids.indexOf c
    if i > 0 then ids[i - 1]? else none
  else none

/-- Number of lines of a captured stdout as computed by the source:
`len(result.stdout.split(chr(10))) if result.stdout else 0`.  The length of a
split on a separator is one more than the number of separators. -/
def nLines (s : String) : Nat :=
  if s = "" then 0 else s.data.count '\n' + 1

/-- The property substitution table shared by the previous_step branch and
the name-reference branch of resolve: exit_code, findings_count, status.
Unknown properties yield no substitution. -/
def propertyValue (r : ExecutionResult) (prop : String) : Option String :=
  if prop = "exit_code" then some (toString r.exit_code)
  else if prop = "findings_count" then some (toString (nLines r.stdout))
  else if prop = "status" then some r.status.value
  else none

/-- The body of the per-token loop of resolve, applied to the accumulated
text.  Mirrors the source exactly: the previous_step branch runs first, then
(a separate `if`, not an `elif`) the name-reference branch. -/
def resolveSpecialVar (rv : VariableResolver) (cur : Option String)
    (var : String) (resolved : List Char) : List Char :=
  if var.data.contains '.' ∧ (varLookup rv.vars var).isNone then
    let step_ref := (splitDot1 var).1
    let property_name := (splitDot1 var).2
    let r1 :=
      if step_ref = "previous_step" ∧ optTruthy cur ∧ rv.workflow_steps ≠ [] then
        match cur with
        | some c =>
          match prevStepId (stepIds rv.workflow_steps) c with
          | some pid =>
            match lookupResult rv.execution_results pid with
            | some res =>
              match propertyValue res property_name with
              | some v => replaceAll ('{' :: var.data ++ ['}']) v.data resolved
              | none => resolved
            | none => resolved
          | none => resolved
        | none => resolved
      else resolved
    match stepNameToId rv.workflow_steps step_ref with
    | some sid =>
      match lookupResult rv.execution_results sid with
      | some res =>
        match propertyValue res property_name with
        | some v => replaceAll ('{' :: var.data ++ ['}']) v.data r1
        | none => r1
      | none => r1
    | none => r1
  else resolved

/-- The closing loop of resolve: replace every plain variable key in dict
iteration order. -/
def applyPlainVars (vars : List (String × String)) (acc : List Char) : List Char :=
  vars.foldl (fun acc p => replaceAll ('{' :: p.1.data ++ ['}']) p.2.data acc) acc

/-- Character-list core of VariableResolver.resolve: the dot-reference pass
over the tokens of the original text, then plain variable replacement in
dict iteration order. -/
def resolveChars (rv : VariableResolver) (cur : Option String)
    (text : List Char) : List Char :=
  let special := findTokens text
  let r1 := special.foldl (fun acc v => resolveSpecialVar rv cur (String.mk v) acc) text
  applyPlainVars rv.vars r1

/-- VariableResolver.resolve from src/workflow_engine.py lines 35-87. -/
def VariableResolver.resolve (rv : VariableResolver) (text : String)
    (cur : Option String) : String :=
  String.mk (resolveChars rv cur text.data)

/-- VariableResolver.validate_variables from src/workflow_engine.py lines
89-93: every token of the text whose body is not a key of the plain variable
mapping. -/
def VariableResolver.validate_variables (rv : VariableResolver)
    (text : String) : List String :=
  ((findTokens text.data).map String.mk).filter
    (fun v => (varLookup rv.vars v).isNone)

/-! Workflow engine (src/workflow_engine.py, WorkflowRunner). -/

/-- Outcome of one subprocess.run call, as seen by _run_command: normal
completion, expiry of the wall-clock timeout (with optionally buffered
partial output, matching the optional stdout/stderr of TimeoutExpired), or
any other launch failure. -/
inductive ProcBehavior where
  | completed (stdout stderr : String) (returncode : Int)
  | timedOut (stdout stderr : Option String)
  | raised (msg : String)
deriving Repr

/-- The external calls the engine makes, supplied as parameters of the
embedding: Python eval of a resolved condition expression (truthiness of the
value, or the exception it raises), shutil.which, and the process launch. -/
structure EngineOracles where
  pyEval : String → Except String Bool
  which : String → Bool
  run : String → String → Int → List (String × String) → ProcBehavior

/-- WorkflowRunner construction parameters that the embedded code reads. -/
structure RunnerConfig where
  dry_run : Bool := false
  sandbox_dir : String := "/tmp/workflow_sandbox"

/-- WorkflowRunner._run_command (lines 403-420): run through the shell and
return a stdout/stderr/exit-code triple.  TimeoutExpired is caught here and
converted to exit code -1 with whatever partial output was buffered, so this
function never lets the timeout exception escape; any other launch failure
also yields exit code -1 with the error text in stderr. -/
def run_command (env : EngineOracles) (command working_dir : String)
    (timeout : Int) (env_vars : List (String × String)) :
    String × String × Int :=
  match env.run command working_dir timeout env_vars with
  | .completed o e c => (o, e, c)
  | .timedOut o e => (o.getD "", e.getD "", -1)
  | .raised m => ("", m, -1)

/-- WorkflowRunner.evaluate_condition (lines 109-142).  Total by
construction: a failing eval (the .error case of the oracle) is caught and
turns into False before the if/unless negation is applied, exactly as the
except branch of the source returns False directly. -/
def evaluate_condition (env : EngineOracles) (rv : VariableResolver)
    (step : WorkflowStep) : Bool :=
  if step.condition_type = "none" ∨ step.condition_expression = "" then true
  else
    let resolvedE := rv.resolve step.condition_expression (some step.id)
    let litTrue := containsSubstr "True".data resolvedE.data
    let litFalse := containsSubstr "False".data resolvedE.data
    let r : Except String Bool :=
      if litTrue ∧ ¬ litFalse then .ok true
      else if litFalse ∧ ¬ litTrue then .ok false
      else env.pyEval resolvedE
    match r with
    | .ok b => if step.condition_type = "if" then b else !b
    | .error _ => false

/-- Simplified Python repr of a string: the text between single quotes.
(The escaping Python applies when the text itself holds a quote or a
backslash is not modelled; the claims only concern the fixed message text
in front of the list.) -/
def pyStrRepr (s : String) : String := "\x27" ++ s ++ "\x27"

/-- Python repr of a list of strings, as interpolated into the
"Unresolved variables" ValueError message. -/
def pyListRepr (l : List String) : String :=
  "[" ++ String.intercalate ", " (l.map pyStrRepr) ++ "]"

/-- WorkflowRunner._execute_step (lines 334-401).  Returns the recorded
ExecutionResult paired with a flag telling whether _run_command was invoked
(whether a shell process was launched).  The source's
`except subprocess.TimeoutExpired` branch in this method is unreachable:
_run_command already catches TimeoutExpired and returns a normal triple, so
no exception of that type can arrive here; the embedding therefore has no
such path. -/
def execute_step (cfg : RunnerConfig) (env : EngineOracles)
    (rv : VariableResolver) (step : WorkflowStep) : ExecutionResult × Bool :=
  let base : ExecutionResult :=
    { step_id := step.id, status := .running, start_time := "" }
  let resolved_command := rv.resolve step.command (some step.id)
  let working_dir :=
    if step.working_directory ≠ "" then
      rv.resolve step.working_directory (some step.id)
    else cfg.sandbox_dir
  let unresolved := rv.validate_variables resolved_command
  let runPhase : ExecutionResult × Bool :=
    if cfg.dry_run then
      ({ base with status := .success,
                   stdout := "DRY RUN: Would execute: " ++ resolved_command },
       false)
    else
      let out := run_command env resolved_command working_dir step.timeout
        step.environment_vars
      ({ base with stdout := out.1, stderr := out.2.1, exit_code := out.2.2,
                   status := if out.2.2 = 0 then .success else .failed },
       true)
  if unresolved ≠ [] then
    ({ base with status := .failed,
                 error_message := "Unresolved variables: " ++ pyListRepr unresolved },
     false)
  else if resolved_command ≠ "" ∧ ¬ cfg.dry_run then
    match splitWs resolved_command.data with
    | [] =>
      ({ base with status := .failed,
                   error_message := "list index out of range" }, false)
    | command_name :: _ =>
      if ¬ env.which command_name then
        ({ base with status := .failed,
                     error_message :=
                       "Command \x27" ++ command_name ++ "\x27 not found in PATH." },
         false)
      else runPhase
  else runPhase

/-- The per-run result map; insertion shadows any earlier binding. -/
abbrev ResultMap := List (String × ExecutionResult)

/-- Record a result under a step id (dict assignment). -/
def recordResult (m : ResultMap) (k : String) (v : ExecutionResult) : ResultMap :=
  (k, v) :: m

/-- WorkflowRunner._skip_step (lines 181-191): record a SKIPPED result
carrying the reason. -/
def skip_step (m : ResultMap) (step : WorkflowStep) (message : String) : ResultMap :=
  recordResult m step.id
    { step_id := step.id, status := .skipped, start_time := "",
      error_message := message }

/-- WorkflowRunner._get_dependency_statuses (lines 422-430): the status of
every dependency, PENDING when a dependency has no recorded result. -/
def get_dependency_statuses (m : ResultMap) (deps : List String) :
    List StepStatus :=
  deps.map (fun d =>
    match lookupResult m d with
    | some r => r.status
    | none => .pending)

/-- The resolver as the scheduling loops see it: built once per run over the
merged variables and the workflow steps, holding the live (current) result
map. -/
def liveResolver (gv sv : List (String × String)) (steps : List WorkflowStep)
    (m : ResultMap) : VariableResolver :=
  { vars := mergeVars gv sv, execution_results := m, workflow_steps := steps }

/-- One iteration of the sequential loop of _execute_sequential (lines
193-225): disabled steps are passed over silently; unmet dependencies or an
unmet condition record a SKIPPED result; otherwise the executed step's
result is recorded.  `allSteps` is the full workflow step list the resolver
was constructed over. -/
def seqStep (cfg : RunnerConfig) (env : EngineOracles)
    (gv sv : List (String × String)) (allSteps : List WorkflowStep)
    (m : ResultMap) (step : WorkflowStep) : ResultMap :=
  if step.enabled then
    let rv := liveResolver gv sv allSteps m
    if (get_dependency_statuses m step.dependencies).all
        (fun s => s = StepStatus.success) then
      if evaluate_condition env rv step then
        recordResult m step.id (execute_step cfg env rv step).1
      else
        skip_step m step ("Skipping " ++ step.name ++ ": Condition not met.")
    else
      skip_step m step ("Skipping " ++ step.name ++ ": Dependencies not successfully met.")
  else m

/-- WorkflowRunner._execute_sequential (lines 193-225): fold the loop body
over the steps in declaration order, starting from the fresh empty map. -/
def execute_sequential (cfg : RunnerConfig) (env : EngineOracles)
    (gv sv : List (String × String)) (steps : List WorkflowStep) : ResultMap :=
  steps.foldl (seqStep cfg env gv sv steps) []

/-- State of the initial submission loop of _execute_parallel: the result
map, the ids submitted to the thread pool, and the ids still pending. -/
structure ParState where
  m : ResultMap
  submitted : List String
  pending : List String

/-- One iteration of the initial-submission loop of _execute_parallel (lines
254-268) over the ready (dependency-free) steps: enabled steps whose
condition holds are submitted; enabled steps whose condition fails are
recorded SKIPPED and removed from pending; disabled steps are left pending
and unrecorded. -/
def parInitStep (env : EngineOracles) (gv sv : List (String × String))
    (allSteps : List WorkflowStep) (st : ParState) (step : WorkflowStep) :
    ParState :=
  if step.enabled then
    let rv := liveResolver gv sv allSteps st.m
    if evaluate_condition env rv step then
      { st with submitted := st.submitted ++ [step.id],
                pending := st.pending.erase step.id }
    else
      { st with
          m := skip_step st.m step ("Skipping " ++ step.name ++ ": Condition not met."),
          pending := st.pending.erase step.id }
  else st

/-- WorkflowRunner._execute_parallel (lines 227-332).  Returns the result
map and a flag telling whether the run aborted with the NameError.

The completion loop (line 273) evaluates `FIRST_COMPLETED`, a name the
module never defines or imports (line 16 imports only ThreadPoolExecutor
and wait), so the first pass through `while future_to_step` raises
NameError.  The exception propagates out of _execute_parallel before any
submitted future's result is recorded and before the final sweep runs;
execute_workflow catches it at the run boundary.  Hence: if at least one
step was submitted, the map as of submission time is the final map;
otherwise the loop body never runs and the final sweep records a SKIPPED
result for every still-pending step with a not-all-success dependency list.
The sweep iterates a Python set (unspecified order); it is modelled in
declaration order, and each iteration writes only its own step's key. -/
def execute_parallel (cfg : RunnerConfig) (env : EngineOracles)
    (gv sv : List (String × String)) (steps : List WorkflowStep) :
    ResultMap × Bool :=
  let ready := steps.filter (fun s => s.dependencies = [])
  let st := ready.foldl (parInitStep env gv sv steps)
    ⟨[], [], steps.map (fun s => s.id)⟩
  if st.submitted ≠ [] then
    (st.m, true)
  else
    let final := st.pending.foldl (fun m pid =>
      match steps.find? (fun s => s.id = pid) with
      | some step =>
        if ¬ (get_dependency_statuses m step.dependencies).all
            (fun s => s = StepStatus.success) then
          skip_step m step
            ("Skipping " ++ step.name ++ ": Dependencies not successfully met.")
        else m
      | none => m) st.m
    (final, false)

/-- WorkflowRunner.execute_workflow (lines 152-173): dispatch on the
execution mode; any exception escaping a strategy (in particular the
parallel NameError) is caught at this boundary and the accumulated result
map is returned. -/
def execute_workflow (cfg : RunnerConfig) (env : EngineOracles)
    (wf : Workflow) (gv sv : List (String × String)) : ResultMap :=
  match wf.execution_mode with
  | .sequential => execute_sequential cfg env gv sv wf.steps
  | .parallel => (execute_parallel cfg env gv sv wf.steps).1

/-! Specification-side comparison definitions. -/

/-- Split a character list on newline characters (every segment, empty
segments included). -/
def splitOnNl : List Char → List (List Char)
  | [] => [[]]
  | c :: rest =>
    if c = '\n' then [] :: splitOnNl rest
    else
      match splitOnNl rest with
      | [] => [[c]]
      | l :: ls => (c :: l) :: ls

/-- Modelled from the spec (section 4.1): the findings_count a reader of the
spec would expect, the number of non-empty lines of the captured stdout.
Used only to compare the spec's wording with the source's substitution. -/
def nonEmptyLineCount (s : String) : Nat :=
  ((splitOnNl s.data).filter (fun l => l ≠ [])).length

/-- Replace the dependency list of a step, leaving everything else unchanged.
Used to state that variable resolution is independent of the dependency
graph. -/
def setDeps (f : WorkflowStep → List String) (s : WorkflowStep) : WorkflowStep :=
  { s with dependencies := f s }

/-! Concrete fixtures used by witnesses and counterexamples. -/

/-- Oracles for runs that never consult eval, find every command and succeed
with exit code 0. -/
def trivialOracles : EngineOracles :=
  ⟨fun _ => .error "eval disabled", fun _ => true, fun _ _ _ _ => .completed "" "" 0⟩

/-- Oracles whose process completes with exit code 1 (a failing command). -/
def oraclesFailRun : EngineOracles :=
  ⟨fun _ => .error "eval disabled", fun _ => true, fun _ _ _ _ => .completed "" "" 1⟩

/-- Oracles whose process exceeds its wall-clock timeout with partial stdout
buffered. -/
def oraclesTimeoutRun : EngineOracles :=
  ⟨fun _ => .error "eval disabled", fun _ => true,
   fun _ _ _ _ => .timedOut (some "partial") none⟩

/-- Oracles for which no command is found on the search path. -/
def oraclesNotFound : EngineOracles :=
  ⟨fun _ => .error "eval disabled", fun _ => false, fun _ _ _ _ => .completed "" "" 0⟩

/-- Oracles whose eval raises (a malformed condition expression) and whose
process succeeds. -/
def oraclesEvalErr : EngineOracles :=
  ⟨fun _ => .error "SyntaxError: invalid syntax", fun _ => true,
   fun _ _ _ _ => .completed "" "" 0⟩

/-- Oracles whose process succeeds with stdout "ok". -/
def oraclesEcho : EngineOracles :=
  ⟨fun _ => .error "eval disabled", fun _ => true, fun _ _ _ _ => .completed "ok" "" 0⟩

/-- Dry-run configuration. -/
def cfgDry : RunnerConfig := ⟨true, "/tmp/workflow_sandbox"⟩

/-- Real-run configuration. -/
def cfgReal : RunnerConfig := ⟨false, "/tmp/workflow_sandbox"⟩

/-- A single enabled unconditioned step with no dependencies (C1). -/
def step1 : WorkflowStep := { id := "s1", name := "step1", command := "echo ok" }

/-- The C1 workflow in sequential mode. -/
def wf1seq : Workflow := { steps := [step1], execution_mode := .sequential }

/-- The C1 workflow in parallel mode. -/
def wf1par : Workflow := { steps := [step1], execution_mode := .parallel }

/-- A failing first step (C4). -/
def stepA : WorkflowStep := { id := "a", name := "A", command := "false" }

/-- A step depending on the failing step (C4). -/
def stepB : WorkflowStep :=
  { id := "b", name := "B", command := "true", dependencies := ["a"] }

/-- The C4 workflow in sequential mode. -/
def wf4seq : Workflow := { steps := [stepA, stepB], execution_mode := .sequential }

/-- The C4 workflow in parallel mode. -/
def wf4par : Workflow := { steps := [stepA, stepB], execution_mode := .parallel }

/-- A step whose command outlives its one-second timeout (C2). -/
def sleepStep : WorkflowStep :=
  { id := "s", name := "sleeper", command := "sleep 5", timeout := 1 }

/-- A resolver over no variables, no results and no steps. -/
def rvEmpty : VariableResolver := ⟨[], [], []⟩

/-- A step whose command's first token is not on the search path (C3). -/
def frobStep : WorkflowStep := { id := "s", name := "frob", command := "frobnicate x" }

/-- Recorded result of a scanner step whose stdout is one hit line followed
by two newline characters (C5). -/
def scanResult : ExecutionResult :=
  { step_id := "scan-id", status := .success, stdout := "hit\n\n" }

/-- Resolver exposing the scanner step under its name (C5). -/
def rvScan : VariableResolver :=
  ⟨[], [("scan-id", scanResult)], [{ id := "scan-id", name := "scan" }]⟩

/-- Recorded result of the first step, exit code 7 (C8). -/
def prevResult : ExecutionResult :=
  { step_id := "one", status := .success, exit_code := 7 }

/-- Resolver in which step "two" positionally follows step "one", while its
declared dependency list points elsewhere entirely (C8). -/
def rvPrev : VariableResolver :=
  ⟨[], [("one", prevResult)],
   [{ id := "one", name := "first" },
    { id := "two", name := "second", dependencies := ["zzz"] }]⟩

/-- An enabled step guarded by a malformed condition expression (C6). -/
def condStep : WorkflowStep :=
  { id := "cs", name := "gate", command := "true", condition_type := "if",
    condition_expression := "\x7bx\x7d >" }

/-- A disabled step (C7). -/
def dStep : WorkflowStep := { id := "d", name := "D", enabled := false }

/-- An enabled step depending on the disabled step (C7). -/
def eStep : WorkflowStep :=
  { id := "e", name := "E", command := "true", dependencies := ["d"] }

/-- A resolver whose variable mapping maps a to the text of its own
placeholder, so resolution leaves a placeholder behind while
validate_variables reports nothing (C10). -/
def rvLoop : VariableResolver := ⟨[("a", "\x7ba\x7d")], [], []⟩

/-- A step whose resolved command still holds the placeholder (C10). -/
def loopStep : WorkflowStep := { id := "s", name := "L", command := "echo \x7ba\x7d" }

/-- A step whose command references a variable no mapping defines (C10
witness). -/
def missingStep : WorkflowStep :=
  { id := "m", name := "M", command := "echo \x7bmissing\x7d" }

/-! Helper lemmas. -/

theorem string_mk_data (s : String) : String.mk s.data = s := rfl

theorem digitChar_ne_brace (m : Nat) : Nat.digitChar m ≠ '{' := by
  by_cases h : m < 16
  · interval_cases m <;> decide
  · unfold Nat.digitChar
    repeat rw [if_neg (by omega)]
    decide

theorem toDigitsCore_ne_brace : ∀ (f n : Nat) (ds : List Char),
    (∀ c ∈ ds, c ≠ '{') → ∀ c ∈ Nat.toDigitsCore 10 f n ds, c ≠ '{' := by
  intro f
  induction f with
  | zero => intro n ds h c hc; exact h c hc
  | succ f ih =>
    intro n ds h c hc
    simp only [Nat.toDigitsCore] at hc
    split at hc
    · rcases List.mem_cons.mp hc with h1 | h1
      · subst h1; exact digitChar_ne_brace _
      · exact h c h1
    · refine ih _ _ ?_ c hc
      intro d hd
      rcases List.mem_cons.mp hd with h1 | h1
      · subst h1; exact digitChar_ne_brace _
      · exact h d h1

theorem natRepr_ne_brace (n : Nat) : '{' ∉ (Nat.repr n).data := by
  intro hmem
  exact toDigitsCore_ne_brace _ _ [] (by intro c hc; cases hc) '{' hmem rfl

theorem natToString_ne_brace (n : Nat) : '{' ∉ (toString n).data :=
  natRepr_ne_brace n

theorem intToString_ne_brace (i : Int) : '{' ∉ (toString i).data := by
  cases i with
  | ofNat m => exact natRepr_ne_brace m
  | negSucc m =>
    show '{' ∉ ("-" ++ Nat.repr (m + 1)).data
    rw [String.data_append]
    intro h
    rcases List.mem_append.mp h with h1 | h1
    · simp at h1
    · exact natRepr_ne_brace _ h1

theorem replaceAllF_empty (pat rep : List Char) (fuel : Nat) :
    replaceAllF pat rep fuel [] = [] := by
  cases fuel <;> rfl

theorem isPrefixOf_self_char : ∀ l : List Char, l.isPrefixOf l = true := by
  intro l
  induction l with
  | nil => rfl
  | cons c cs ih => simp [List.isPrefixOf, ih]

theorem replaceAllF_no_brace (p rep : List Char) :
    ∀ (fuel : Nat) (s : List Char), '{' ∉ s →
      replaceAllF ('{' :: p) rep fuel s = s := by
  intro fuel
  induction fuel with
  | zero => intro s _; rfl
  | succ fuel ih =>
    intro s hs
    cases s with
    | nil => rfl
    | cons c rest =>
      have hc : c ≠ '{' := by
        intro h; exact hs (h ▸ List.mem_cons_self c rest)
      have hrest : '{' ∉ rest := fun h => hs (List.mem_cons_of_mem c h)
      have hpre : (('{' :: p).isPrefixOf (c :: rest)) = false := by
        simp [List.isPrefixOf]
        intro h
        exact absurd h.symm hc
      simp only [replaceAllF, hpre]
      simp [ih rest hrest]

theorem replaceAll_no_brace (p rep : List Char) (s : List Char) (hs : '{' ∉ s) :
    replaceAll ('{' :: p) rep s = s :=
  replaceAllF_no_brace p rep s.length s hs

theorem replaceAll_self (pat rep : List Char) (h : pat ≠ []) :
    replaceAll pat rep pat = rep := by
  cases pat with
  | nil => exact absurd rfl h
  | cons c cs =>
    show replaceAllF (c :: cs) rep (cs.length + 1) (c :: cs) = rep
    simp only [replaceAllF]
    rw [if_pos ⟨h, isPrefixOf_self_char (c :: cs)⟩]
    rw [List.drop_length, replaceAllF_empty, List.append_nil]

theorem applyPlainVars_no_brace (vars : List (String × String))
    (acc : List Char) (h : '{' ∉ acc) : applyPlainVars vars acc = acc := by
  induction vars with
  | nil => rfl
  | cons p ps ih =>
    show applyPlainVars (p :: ps) acc = acc
    unfold applyPlainVars
    rw [List.foldl_cons]
    simp only [List.cons_append]
    rw [replaceAll_no_brace _ _ _ h]
    exact ih

theorem findTokensF_empty (fuel : Nat) : findTokensF fuel [] = [] := by
  cases fuel <;> rfl

theorem findTokensF_no_brace : ∀ (fuel : Nat) (s : List Char), '{' ∉ s →
    findTokensF fuel s = [] := by
  intro fuel
  induction fuel with
  | zero => intro s _; rfl
  | succ fuel ih =>
    intro s hs
    cases s with
    | nil => rfl
    | cons c rest =>
      have hc : c ≠ '{' := by
        intro h; exact hs (h ▸ List.mem_cons_self c rest)
      have hrest : '{' ∉ rest := fun h => hs (List.mem_cons_of_mem c h)
      simp only [findTokensF]
      rw [if_neg hc]
      exact ih rest hrest

theorem findTokens_no_brace (s : List Char) (hs : '{' ∉ s) :
    findTokens s = [] :=
  findTokensF_no_brace s.length s hs

theorem takeWhile_append_stop (c : Char) : ∀ (l r : List Char), c ∉ l →
    (l ++ c :: r).takeWhile (fun d => d ≠ c) = l := by
  intro l
  induction l with
  | nil =>
    intro r _
    simp [List.takeWhile]
  | cons a l' ih =>
    intro r h
    have ha : a ≠ c := by
      intro hh; exact h (hh ▸ List.mem_cons_self a l')
    have hl : c ∉ l' := fun hh => h (List.mem_cons_of_mem a hh)
    have := ih r hl
    simp only [List.cons_append, List.takeWhile_cons] at this ⊢
    simp only [decide_not] at this ⊢
    simp [ha, this]

theorem drop_append_cons (l : List Char) (c : Char) (r : List Char) :
    (l ++ c :: r).drop (l.length + 1) = r := by
  have h : l ++ c :: r = (l ++ [c]) ++ r := by simp
  have hlen : (l ++ [c]).length = l.length + 1 := by simp
  rw [h, ← hlen, List.drop_left]

theorem findTokensF_cons (fuel : Nat) (c : Char) (rest : List Char) :
    findTokensF (fuel + 1) (c :: rest) =
      if c = '{' then
        if (rest.takeWhile (fun d => d ≠ '}')) ≠ [] ∧
            (rest.takeWhile (fun d => d ≠ '}')).length < rest.length then
          (rest.takeWhile (fun d => d ≠ '}')) ::
            findTokensF fuel (rest.drop ((rest.takeWhile (fun d => d ≠ '}')).length + 1))
        else findTokensF fuel rest
      else findTokensF fuel rest := rfl

theorem findTokens_single (v : List Char) (hne : v ≠ []) (hv : '}' ∉ v) :
    findTokens ('{' :: v ++ ['}']) = [v] := by
  have hlen : ('{' :: v ++ ['}']).length = v.length + 1 + 1 := by simp
  show findTokensF ('{' :: v ++ ['}']).length ('{' :: v ++ ['}']) = [v]
  rw [hlen]
  simp only [List.cons_append]
  rw [findTokensF_cons]
  rw [if_pos rfl]
  have htw : (v ++ ['}']).takeWhile (fun d => d ≠ '}') = v :=
    takeWhile_append_stop '}' v [] hv
  rw [htw]
  have hcond : v ≠ [] ∧ v.length < (v ++ ['}']).length := by
    constructor
    · exact hne
    · simp
  rw [if_pos hcond]
  have hdrop : (v ++ ['}']).drop (v.length + 1) = [] := drop_append_cons v '}' []
  rw [hdrop, findTokensF_empty]

theorem lookupResult_cons (j : String) (v : ExecutionResult)
    (m : ResultMap) (k : String) :
    lookupResult ((j, v) :: m) k = if j = k then some v else lookupResult m k := by
  unfold lookupResult
  by_cases h : j = k
  · simp [List.find?, h]
  · simp [List.find?, h]

theorem string_data_eq_nil {v : String} (h : v.data = []) : v = "" := by
  cases v
  simp_all

theorem resolve_no_brace (rv : VariableResolver) (cur : Option String)
    (x : String) (h : '{' ∉ x.data) : rv.resolve x cur = x := by
  unfold VariableResolver.resolve resolveChars
  rw [findTokens_no_brace _ h]
  simp only [List.foldl_nil]
  rw [applyPlainVars_no_brace _ _ h]

theorem isPrefixOf_append_close : ∀ (k v : List Char), '}' ∉ v →
    (k ++ ['}']).isPrefixOf (v ++ ['}']) = true → k = v := by
  intro k
  induction k with
  | nil =>
    intro v hv h
    cases v with
    | nil => rfl
    | cons c v' =>
      exfalso
      simp only [List.nil_append, List.cons_append, List.isPrefixOf,
        Bool.and_eq_true, beq_iff_eq] at h
      exact hv (h.1 ▸ List.mem_cons_self c v')
  | cons a k' ih =>
    intro v hv h
    cases v with
    | nil =>
      exfalso
      simp only [List.cons_append, List.nil_append, List.isPrefixOf,
        Bool.and_eq_true, beq_iff_eq] at h
      rcases h with ⟨h1, h2⟩
      cases k' with
      | nil => simp [List.isPrefixOf] at h2
      | cons b k'' => simp [List.isPrefixOf] at h2
    | cons c v' =>
      have hv' : '}' ∉ v' := fun hh => hv (List.mem_cons_of_mem c hh)
      simp only [List.cons_append, List.isPrefixOf, Bool.and_eq_true,
        beq_iff_eq] at h
      rw [h.1, ih v' hv' h.2]

theorem replaceAllF_cons (pat rep : List Char) (fuel : Nat) (c : Char)
    (rest : List Char) :
    replaceAllF pat rep (fuel + 1) (c :: rest) =
      if pat ≠ [] ∧ pat.isPrefixOf (c :: rest) then
        rep ++ replaceAllF pat rep fuel ((c :: rest).drop pat.length)
      else c :: replaceAllF pat rep fuel rest := rfl

theorem replaceAll_single_token_ne (k v rep : List Char) (hk : k ≠ v)
    (hv1 : '{' ∉ v) (hv2 : '}' ∉ v) :
    replaceAll ('{' :: (k ++ ['}'])) rep ('{' :: (v ++ ['}'])) =
      '{' :: (v ++ ['}']) := by
  have hlen : ('{' :: (v ++ ['}'])).length = (v.length + 1) + 1 := by simp
  show replaceAllF ('{' :: (k ++ ['}'])) rep ('{' :: (v ++ ['}'])).length
    ('{' :: (v ++ ['}'])) = '{' :: (v ++ ['}'])
  rw [hlen, replaceAllF_cons]
  rw [if_neg ?hneg]
  case hneg =>
    intro hc
    have := hc.2
    simp only [List.isPrefixOf, Bool.and_eq_true, beq_iff_eq] at this
    exact hk (isPrefixOf_append_close k v hv2 this.2)
  have hnb : '{' ∉ v ++ ['}'] := by
    intro hmem
    rcases List.mem_append.mp hmem with h1 | h1
    · exact hv1 h1
    · simp at h1
  rw [replaceAllF_no_brace _ _ _ _ hnb]

theorem applyPlainVars_single_token (vars : List (String × String))
    (v : List Char) (hv1 : '{' ∉ v) (hv2 : '}' ∉ v)
    (hk : ∀ p ∈ vars, p.1.data ≠ v) :
    applyPlainVars vars ('{' :: (v ++ ['}'])) = '{' :: (v ++ ['}']) := by
  induction vars with
  | nil => rfl
  | cons p ps ih =>
    show applyPlainVars (p :: ps) _ = _
    unfold applyPlainVars
    rw [List.foldl_cons]
    simp only [List.cons_append]
    rw [replaceAll_single_token_ne p.1.data v p.2.data
      (hk p (List.mem_cons_self p ps)) hv1 hv2]
    exact ih (fun q hq => hk q (List.mem_cons_of_mem p hq))

theorem varLookup_none_keys {vars : List (String × String)} {v : String}
    (h : varLookup vars v = none) : ∀ p ∈ vars, p.1 ≠ v := by
  intro p hp heq
  unfold varLookup at h
  rw [Option.map_eq_none'] at h
  have := List.find?_eq_none.mp h p hp
  simp [heq] at this

theorem string_data_inj {a b : String} (h : a.data = b.data) : a = b := by
  have := congrArg String.mk h
  rwa [string_mk_data, string_mk_data] at this

/-- C9: variable resolution is idempotent on fully-resolved text: a text with
no placeholder (no open-brace character) is returned unchanged, hence
resolving twice equals resolving once as soon as the first resolution left
no placeholder; and a single token that is neither a variable key nor a
dot-reference is left verbatim. -/
theorem c9_resolve_idempotent (rv : VariableResolver) (cur : Option String)
    (x : String) :
    ('{' ∉ x.data → rv.resolve x cur = x) ∧
    ('{' ∉ (rv.resolve x cur).data →
      rv.resolve (rv.resolve x cur) cur = rv.resolve x cur) ∧
    (∀ v : String, v ≠ "" → '{' ∉ v.data → '}' ∉ v.data → '.' ∉ v.data →
      varLookup rv.vars v = none →
      rv.resolve ("\x7b" ++ v ++ "\x7d") cur = "\x7b" ++ v ++ "\x7d") := by
  refine ⟨fun h => resolve_no_brace rv cur x h,
          fun h => resolve_no_brace rv cur _ h, ?_⟩
  intro v h1 h2 h3 h4 h5
  have hne : v.data ≠ [] := fun hnil => h1 (string_data_eq_nil hnil)
  have hdata : ("\x7b" ++ v ++ "\x7d").data = '{' :: (v.data ++ ['}']) := by
    rw [String.data_append, String.data_append]
    rfl
  have hft := findTokens_single v.data hne h3
  rw [List.cons_append] at hft
  unfold VariableResolver.resolve resolveChars
  rw [hdata, hft]
  simp only [List.foldl_cons, List.foldl_nil]
  rw [string_mk_data v]
  have hcontains : v.data.contains '.' = false := by
    simpa using h4
  unfold resolveSpecialVar
  rw [if_neg (by intro hc; exact h4 (by simpa using hc.1))]
  rw [applyPlainVars_single_token rv.vars v.data h2 h3 ?keys]
  case keys =>
    intro p hp hdat
    exact varLookup_none_keys h5 p hp (string_data_inj hdat)
  rw [← hdata, string_mk_data]

/-- Witness for C9 at a concrete resolver and texts. -/
theorem c9_witness :
    (VariableResolver.mk [("k", "val")] [] []).resolve "abc" none = "abc" ∧
    (VariableResolver.mk [("k", "val")] [] []).resolve
      ((VariableResolver.mk [("k", "val")] [] []).resolve "abc" none) none =
      (VariableResolver.mk [("k", "val")] [] []).resolve "abc" none ∧
    (VariableResolver.mk [("k", "val")] [] []).resolve "\x7bzzz\x7d" none =
      "\x7bzzz\x7d" := by
  refine ⟨(c9_resolve_idempotent _ none "abc").1 (by decide),
          (c9_resolve_idempotent _ none "abc").2.1 (by decide),
          (c9_resolve_idempotent _ none "abc").2.2 "zzz" (by decide)
            (by decide) (by decide) (by decide) (by decide)⟩

theorem stepIds_map_setDeps (f : WorkflowStep → List String)
    (ss : List WorkflowStep) : stepIds (ss.map (setDeps f)) = stepIds ss := by
  unfold stepIds
  rw [List.map_map]
  rfl

theorem stepNameToId_map_setDeps (f : WorkflowStep → List String)
    (ss : List WorkflowStep) (n : String) :
    stepNameToId (ss.map (setDeps f)) n = stepNameToId ss n := by
  unfold stepNameToId
  rw [← List.map_reverse, List.find?_map, Option.map_map]
  rfl

theorem resolve_previous_step_core (rv : VariableResolver) (c pid : String)
    (r : ExecutionResult)
    (hvar : varLookup rv.vars "previous_step.exit_code" = none)
    (hc : c ≠ "")
    (hprev : prevStepId (stepIds rv.workflow_steps) c = some pid)
    (hres : lookupResult rv.execution_results pid = some r) :
    rv.resolve "\x7bprevious_step.exit_code\x7d" (some c) =
      toString r.exit_code := by
  have hsteps : rv.workflow_steps ≠ [] := by
    intro h
    rw [h] at hprev
    simp [prevStepId, stepIds] at hprev
  have hdata : ("\x7bprevious_step.exit_code\x7d" : String).data =
      '{' :: (("previous_step.exit_code" : String).data ++ ['}']) := by decide
  have hft : findTokens (('{' :: (("previous_step.exit_code" : String).data ++ ['}']))) =
      [("previous_step.exit_code" : String).data] := by decide
  unfold VariableResolver.resolve resolveChars
  rw [hdata, hft]
  simp only [List.foldl_cons, List.foldl_nil]
  rw [string_mk_data]
  unfold resolveSpecialVar
  rw [if_pos ⟨by decide, by rw [hvar]; rfl⟩]
  have hsplit1 : (splitDot1 "previous_step.exit_code").1 = "previous_step" := by decide
  have hsplit2 : (splitDot1 "previous_step.exit_code").2 = "exit_code" := by decide
  rw [hsplit1, hsplit2]
  dsimp only
  rw [if_pos ⟨rfl, by simp [optTruthy, hc], hsteps⟩]
  rw [hprev]
  dsimp only
  rw [hres]
  dsimp only
  have hprop : propertyValue r "exit_code" = some (toString r.exit_code) := rfl
  rw [hprop]
  dsimp only
  simp only [List.cons_append, List.nil_append]
  rw [replaceAll_self _ _ (by simp)]
  have hnb : '{' ∉ (toString r.exit_code).data := intToString_ne_brace r.exit_code
  rcases hsn : stepNameToId rv.workflow_steps "previous_step" with _ | sid
  · dsimp only
    rw [applyPlainVars_no_brace _ _ hnb, string_mk_data]
  · dsimp only
    rcases hlr : lookupResult rv.execution_results sid with _ | res
    · dsimp only
      rw [applyPlainVars_no_brace _ _ hnb, string_mk_data]
    · dsimp only
      rcases hpv : propertyValue res "exit_code" with _ | v
      · dsimp only
        rw [applyPlainVars_no_brace _ _ hnb, string_mk_data]
      · dsimp only
        rw [replaceAll_no_brace _ _ _ hnb]
        rw [applyPlainVars_no_brace _ _ hnb, string_mk_data]

/-- C8: resolve interprets previous_step as the step immediately preceding
the current step in the workflow's declaration order (prevStepId over the
declaration-ordered id list), and the outcome is unchanged under any
reassignment of every step's dependency list: the reference is positional,
not graph-based. -/
theorem c8_previous_step_positional (rv : VariableResolver) (c pid : String)
    (r : ExecutionResult)
    (hvar : varLookup rv.vars "previous_step.exit_code" = none)
    (hc : c ≠ "")
    (hprev : prevStepId (stepIds rv.workflow_steps) c = some pid)
    (hres : lookupResult rv.execution_results pid = some r) :
    rv.resolve "\x7bprevious_step.exit_code\x7d" (some c) =
      toString r.exit_code ∧
    ∀ f : WorkflowStep → List String,
      (VariableResolver.mk rv.vars rv.execution_results
        (rv.workflow_steps.map (setDeps f))).resolve
          "\x7bprevious_step.exit_code\x7d" (some c) = toString r.exit_code := by
  refine ⟨resolve_previous_step_core rv c pid r hvar hc hprev hres, ?_⟩
  intro f
  refine resolve_previous_step_core _ c pid r hvar hc ?_ hres
  show prevStepId (stepIds (rv.workflow_steps.map (setDeps f))) c = some pid
  rw [stepIds_map_setDeps]
  exact hprev

/-- Witness for C8: the step list declares "one" then "two"; with current
step "two", previous_step resolves from the result of "one" (exit 7), even
though "two" declares a dependency on an unrelated id, and stays the same
when every dependency list is rewritten. -/
theorem c8_witness :
    rvPrev.resolve "\x7bprevious_step.exit_code\x7d" (some "two") = "7" ∧
    (VariableResolver.mk rvPrev.vars rvPrev.execution_results
      (rvPrev.workflow_steps.map (setDeps (fun _ => ["one"])))).resolve
        "\x7bprevious_step.exit_code\x7d" (some "two") = "7" := by
  have h := c8_previous_step_positional rvPrev "two" "one" prevResult
    (by decide) (by decide) (by decide) (by decide)
  exact ⟨h.1.trans (by decide), (h.2 (fun _ => ["one"])).trans (by decide)⟩

theorem resolve_findings_count_core (rv : VariableResolver) (n sid : String)
    (r : ExecutionResult) (cur : Option String)
    (hdot : '.' ∉ n.data) (hcl : '}' ∉ n.data)
    (hnp : n ≠ "previous_step")
    (hvar : varLookup rv.vars (n ++ ".findings_count") = none)
    (hname : stepNameToId rv.workflow_steps n = some sid)
    (hres : lookupResult rv.execution_results sid = some r) :
    rv.resolve ("\x7b" ++ n ++ ".findings_count\x7d") cur =
      toString (nLines r.stdout) := by
  have hsfx : (".findings_count\x7d" : String).data =
      (".findings_count" : String).data ++ ['}'] := by decide
  have hdata : ("\x7b" ++ n ++ ".findings_count\x7d").data =
      '{' :: ((n.data ++ (".findings_count" : String).data) ++ ['}']) := by
    rw [String.data_append, String.data_append, hsfx]
    simp [List.append_assoc]
  have htokne : n.data ++ (".findings_count" : String).data ≠ [] := by simp
  have htokcl : '}' ∉ n.data ++ (".findings_count" : String).data := by
    intro hmem
    rcases List.mem_append.mp hmem with h1 | h1
    · exact hcl h1
    · revert h1; decide
  have hft := findTokens_single _ htokne htokcl
  rw [List.cons_append] at hft
  have hmk : String.mk (n.data ++ (".findings_count" : String).data) =
      n ++ ".findings_count" := by
    rw [← String.data_append]
  unfold VariableResolver.resolve resolveChars
  rw [hdata, hft]
  simp only [List.foldl_cons, List.foldl_nil]
  rw [hmk]
  unfold resolveSpecialVar
  rw [if_pos ?cond]
  case cond =>
    constructor
    · show (n ++ ".findings_count").data.contains '.' = true
      rw [String.data_append]
      have : '.' ∈ n.data ++ (".findings_count" : String).data := by
        refine List.mem_append.mpr (Or.inr ?_)
        decide
      simpa using this
    · rw [hvar]; rfl
  have hdsfx : (".findings_count" : String).data =
      '.' :: ("findings_count" : String).data := by decide
  have hsplitA : (splitDot1 (n ++ ".findings_count")).1 = n := by
    show String.mk ((n ++ ".findings_count").data.takeWhile (fun d => d ≠ '.')) = n
    rw [String.data_append, hdsfx, takeWhile_append_stop '.' n.data _ hdot]
  have hsplitB : (splitDot1 (n ++ ".findings_count")).2 = "findings_count" := by
    show String.mk ((n ++ ".findings_count").data.drop
      (((n ++ ".findings_count").data.takeWhile (fun d => d ≠ '.')).length + 1)) =
      "findings_count"
    rw [String.data_append, hdsfx, takeWhile_append_stop '.' n.data _ hdot]
    rw [drop_append_cons]
  rw [hsplitA, hsplitB]
  dsimp only
  rw [if_neg (fun hcond => hnp hcond.1)]
  rw [hname]
  dsimp only
  rw [hres]
  dsimp only
  have hprop : propertyValue r "findings_count" =
      some (toString (nLines r.stdout)) := rfl
  rw [hprop]
  dsimp only
  simp only [String.data_append, List.cons_append, List.nil_append,
    List.append_assoc]
  rw [replaceAll_self _ _ (by simp)]
  have hnb : '{' ∉ (toString (nLines r.stdout)).data :=
    natToString_ne_brace (nLines r.stdout)
  rw [applyPlainVars_no_brace _ _ hnb, string_mk_data]

/-- Counterexample for C5 as stated: for stdout "hit" followed by two
newline characters there is exactly 1 non-empty line, but resolve
substitutes "3" (the length of the newline-split list, empty segments
included), so the substituted value is not the number of non-empty lines. -/
theorem c5_counterexample :
    rvScan.resolve "\x7bscan.findings_count\x7d" none ≠
      toString (nonEmptyLineCount scanResult.stdout) ∧
    rvScan.resolve "\x7bscan.findings_count\x7d" none = "3" ∧
    nonEmptyLineCount scanResult.stdout = 1 := by
  refine ⟨by decide, by decide, by decide⟩

/-- C5 amended: for every step whose command references findings_count of a
step with a recorded result, resolve substitutes the length of the
newline-split of that step's stdout — newline count plus one when stdout is
non-empty, 0 when it is empty (nLines) — not the number of non-empty
lines. -/
theorem c5_findings_count_amended (rv : VariableResolver) (n sid : String)
    (r : ExecutionResult) (cur : Option String)
    (hdot : '.' ∉ n.data) (hcl : '}' ∉ n.data)
    (hnp : n ≠ "previous_step")
    (hvar : varLookup rv.vars (n ++ ".findings_count") = none)
    (hname : stepNameToId rv.workflow_steps n = some sid)
    (hres : lookupResult rv.execution_results sid = some r) :
    rv.resolve ("\x7b" ++ n ++ ".findings_count\x7d") cur =
      toString (nLines r.stdout) :=
  resolve_findings_count_core rv n sid r cur hdot hcl hnp hvar hname hres

/-- Witness for C5 at the concrete scanner resolver. -/
theorem c5_witness :
    rvScan.resolve ("\x7b" ++ "scan" ++ ".findings_count\x7d") none = "3" :=
  (c5_findings_count_amended rvScan "scan" "scan-id" scanResult none
    (by decide) (by decide) (by decide) (by decide) (by decide)
    (by decide)).trans (by decide)

/-- C1: sequential and parallel execution do not produce the same final
status map for a one-step workflow with no dependencies, no condition and
the step enabled.  The sequential run records the step; the parallel run
submits it, then the completion loop evaluates the never-imported name
FIRST_COMPLETED, the NameError aborts the strategy before any future's
result is recorded, and the step is absent from the returned map. -/
theorem c1_parallel_import_bug :
    lookupResult (execute_workflow cfgDry trivialOracles wf1seq [] []) "s1" =
      some { step_id := "s1", status := .success, start_time := "",
             stdout := "DRY RUN: Would execute: echo ok" } ∧
    lookupResult (execute_workflow cfgDry trivialOracles wf1par [] []) "s1" =
      none ∧
    (execute_parallel cfgDry trivialOracles [] [] wf1par.steps).2 = true := by
  refine ⟨by decide, by decide, by decide⟩

/-- C2: a step whose process exceeds its wall-clock timeout is recorded with
status failed, not timeout: _run_command catches TimeoutExpired and returns
exit code -1 with the buffered partial output, so exit_code is -1 and the
partial stdout is kept, but the TIMEOUT branch of _execute_step never
fires. -/
theorem c2_timeout_recorded_failed :
    (execute_step cfgReal oraclesTimeoutRun rvEmpty sleepStep).1.status =
      .failed ∧
    (execute_step cfgReal oraclesTimeoutRun rvEmpty sleepStep).1.status ≠
      .timeout ∧
    (execute_step cfgReal oraclesTimeoutRun rvEmpty sleepStep).1.exit_code =
      -1 ∧
    (execute_step cfgReal oraclesTimeoutRun rvEmpty sleepStep).1.stdout =
      "partial" := by
  refine ⟨by decide, by decide, by decide, by decide⟩

/-- C4: in sequential mode a step whose dependency failed is recorded
skipped with a dependency message, but in parallel mode the same workflow
crashes on the missing FIRST_COMPLETED import as soon as the failing
dependency is submitted, the final sweep never runs, and the dependent step
receives no recorded result at all. -/
theorem c4_parallel_dependent_unrecorded :
    lookupResult (execute_workflow cfgReal oraclesFailRun wf4seq [] []) "a" =
      some { step_id := "a", status := .failed, start_time := "",
             exit_code := 1 } ∧
    lookupResult (execute_workflow cfgReal oraclesFailRun wf4seq [] []) "b" =
      some { step_id := "b", status := .skipped, start_time := "",
             error_message := "Skipping B: Dependencies not successfully met." } ∧
    lookupResult (execute_workflow cfgReal oraclesFailRun wf4par [] []) "b" =
      none ∧
    (execute_parallel cfgReal oraclesFailRun [] [] wf4par.steps).2 = true := by
  refine ⟨by decide, by decide, by decide, by decide⟩

/-- Counterexample for C3 as stated: when the first token of the resolved
command is not found on the search path, the recorded result keeps the
dataclass default exit code 0, not -1 (the status is failed, the error text
is recorded, and no process is launched). -/
theorem c3_counterexample :
    (execute_step cfgReal oraclesNotFound rvEmpty frobStep).1.exit_code = 0 ∧
    (execute_step cfgReal oraclesNotFound rvEmpty frobStep).1.exit_code ≠ -1 ∧
    (execute_step cfgReal oraclesNotFound rvEmpty frobStep).1.status =
      .failed ∧
    (execute_step cfgReal oraclesNotFound rvEmpty frobStep).1.error_message =
      "Command \x27frobnicate\x27 not found in PATH." ∧
    (execute_step cfgReal oraclesNotFound rvEmpty frobStep).2 = false := by
  refine ⟨by decide, by decide, by decide, by decide, by decide⟩

theorem splitWs_cons_ne_empty {s : String} {name : String} {rest : List String}
    (h : splitWs s.data = name :: rest) : s ≠ "" := by
  intro he
  subst he
  simp [splitWs, splitWsF] at h

/-- C3 amended: for every non-dry-run step whose resolved command's first
token is not found on the search path, the shell is never invoked (the
launch flag is false) and the recorded ExecutionResult is a failed outcome
whose exit code is the dataclass default 0 (not -1), with the error text
recorded in error_message; execute_step returns normally (total by
construction, never raising past its boundary). -/
theorem c3_command_not_found_amended (cfg : RunnerConfig) (env : EngineOracles)
    (rv : VariableResolver) (step : WorkflowStep) (name : String)
    (rest : List String)
    (hdry : cfg.dry_run = false)
    (hval : rv.validate_variables (rv.resolve step.command (some step.id)) = [])
    (hsplit : splitWs (rv.resolve step.command (some step.id)).data =
      name :: rest)
    (hwhich : env.which name = false) :
    execute_step cfg env rv step =
      ({ step_id := step.id, status := .failed, start_time := "",
         error_message := "Command \x27" ++ name ++ "\x27 not found in PATH." },
       false) := by
  have hresolved : rv.resolve step.command (some step.id) ≠ "" :=
    splitWs_cons_ne_empty hsplit
  unfold execute_step
  dsimp only
  rw [if_neg (by simp [hval])]
  rw [if_pos ⟨hresolved, by simp [hdry]⟩]
  rw [hsplit]
  dsimp only
  rw [if_pos (by simp [hwhich])]

/-- Witness for C3 amended at the concrete not-found step. -/
theorem c3_witness :
    execute_step cfgReal oraclesNotFound rvEmpty frobStep =
      ({ step_id := frobStep.id, status := .failed, start_time := "",
         error_message := "Command \x27frobnicate\x27 not found in PATH." },
       false) :=
  c3_command_not_found_amended cfgReal oraclesNotFound rvEmpty frobStep
    "frobnicate" ["x"] (by decide) (by decide) (by decide) (by decide)

/-- Counterexample for C10 as stated: with the variable mapping sending a to
the text of its own placeholder, the resolved command still contains a
parsed token, yet validate_variables reports nothing, a process is launched
and the step is recorded success, not failed. -/
theorem c10_counterexample :
    findTokens (rvLoop.resolve loopStep.command (some loopStep.id)).data ≠
      [] ∧
    (execute_step cfgReal oraclesEcho rvLoop loopStep).2 = true ∧
    (execute_step cfgReal oraclesEcho rvLoop loopStep).1.status = .success := by
  refine ⟨by decide, by decide, by decide⟩

/-- C10 amended: for every step whose command, after variable resolution,
still contains a token that is not a key of the merged variable mapping
(validate_variables is non-empty), execute_step records the step failed with
the "Unresolved variables" message and never launches a process. -/
theorem c10_unresolved_variables_amended (cfg : RunnerConfig)
    (env : EngineOracles) (rv : VariableResolver) (step : WorkflowStep)
    (h : rv.validate_variables (rv.resolve step.command (some step.id)) ≠ []) :
    execute_step cfg env rv step =
      ({ step_id := step.id, status := .failed, start_time := "",
         error_message := "Unresolved variables: " ++
           pyListRepr (rv.validate_variables
             (rv.resolve step.command (some step.id))) },
       false) := by
  unfold execute_step
  dsimp only
  rw [if_pos h]

/-- Witness for C10 amended at a concrete undefined plain key. -/
theorem c10_witness :
    execute_step cfgReal trivialOracles rvEmpty missingStep =
      ({ step_id := missingStep.id, status := .failed, start_time := "",
         error_message := "Unresolved variables: " ++
           pyListRepr (rvEmpty.validate_variables
             (rvEmpty.resolve missingStep.command (some missingStep.id))) },
       false) :=
  c10_unresolved_variables_amended cfgReal trivialOracles rvEmpty missingStep
    (by decide)

/-- C6: evaluate_condition is total by construction (a Lean function), and
whenever the Python eval of the resolved expression raises (the oracle
returns an error) while the literal True/False shortcut does not decide the
expression, the step is treated as not runnable: evaluate_condition returns
false, and the sequential scheduler records the step skipped with the
condition reason. -/
theorem c6_eval_failure_skips (cfg : RunnerConfig) (env : EngineOracles)
    (gv sv : List (String × String)) (allSteps : List WorkflowStep)
    (m : ResultMap) (step : WorkflowStep) (msg : String)
    (henabled : step.enabled = true)
    (hdeps : (get_dependency_statuses m step.dependencies).all
      (fun s => s = StepStatus.success) = true)
    (hct : ¬ (step.condition_type = "none" ∨ step.condition_expression = ""))
    (hlit : containsSubstr "True".data
        ((liveResolver gv sv allSteps m).resolve step.condition_expression
          (some step.id)).data =
      containsSubstr "False".data
        ((liveResolver gv sv allSteps m).resolve step.condition_expression
          (some step.id)).data)
    (heval : env.pyEval
        ((liveResolver gv sv allSteps m).resolve step.condition_expression
          (some step.id)) = .error msg) :
    evaluate_condition env (liveResolver gv sv allSteps m) step = false ∧
    seqStep cfg env gv sv allSteps m step =
      skip_step m step ("Skipping " ++ step.name ++ ": Condition not met.") := by
  have hcond : evaluate_condition env (liveResolver gv sv allSteps m) step =
      false := by
    unfold evaluate_condition
    rw [if_neg hct]
    dsimp only
    rw [if_neg ?h1, if_neg ?h2, heval]
    case h1 =>
      intro hc
      rw [hlit] at hc
      exact hc.2 hc.1
    case h2 =>
      intro hc
      rw [← hlit] at hc
      exact hc.2 hc.1
  refine ⟨hcond, ?_⟩
  unfold seqStep
  rw [if_pos henabled]
  rw [if_pos hdeps]
  rw [if_neg (by rw [hcond]; simp)]

/-- Witness for C6 at a concrete malformed condition. -/
theorem c6_witness :
    evaluate_condition oraclesEvalErr (liveResolver [] [] [condStep] [])
      condStep = false ∧
    seqStep cfgReal oraclesEvalErr [] [] [condStep] [] condStep =
      skip_step [] condStep
        ("Skipping " ++ condStep.name ++ ": Condition not met.") :=
  c6_eval_failure_skips cfgReal oraclesEvalErr [] [] [condStep] [] condStep
    "SyntaxError: invalid syntax" (by decide) (by decide) (by decide)
    (by decide) rfl

theorem lookupResult_record_ne (m : ResultMap) (j k : String)
    (v : ExecutionResult) (h : j ≠ k) :
    lookupResult (recordResult m j v) k = lookupResult m k := by
  unfold recordResult
  rw [lookupResult_cons, if_neg h]

theorem lookupResult_skip_ne (m : ResultMap) (step : WorkflowStep)
    (msg : String) (k : String) (h : step.id ≠ k) :
    lookupResult (skip_step m step msg) k = lookupResult m k := by
  unfold skip_step
  exact lookupResult_record_ne m step.id k _ h

theorem seqStep_disabled (cfg : RunnerConfig) (env : EngineOracles)
    (gv sv : List (String × String)) (allSteps : List WorkflowStep)
    (m : ResultMap) (step : WorkflowStep) (h : step.enabled = false) :
    seqStep cfg env gv sv allSteps m step = m := by
  unfold seqStep
  rw [if_neg (by simp [h])]

theorem lookupResult_seqStep_ne (cfg : RunnerConfig) (env : EngineOracles)
    (gv sv : List (String × String)) (allSteps : List WorkflowStep)
    (m : ResultMap) (step : WorkflowStep) (k : String) (h : step.id ≠ k) :
    lookupResult (seqStep cfg env gv sv allSteps m step) k =
      lookupResult m k := by
  unfold seqStep
  by_cases he : step.enabled = true
  · rw [if_pos he]
    dsimp only
    by_cases hd : (get_dependency_statuses m step.dependencies).all
        (fun s => s = StepStatus.success) = true
    · rw [if_pos hd]
      by_cases hc : evaluate_condition env (liveResolver gv sv allSteps m)
          step = true
      · rw [if_pos hc]
        exact lookupResult_record_ne m step.id k _ h
      · rw [if_neg hc]
        exact lookupResult_skip_ne m step _ k h
    · rw [if_neg hd]
      exact lookupResult_skip_ne m step _ k h
  · rw [if_neg he]

theorem seq_fold_lookup_none (cfg : RunnerConfig) (env : EngineOracles)
    (gv sv : List (String × String)) (allSteps : List WorkflowStep) :
    ∀ (todo : List WorkflowStep) (m : ResultMap) (k : String),
      (∀ t ∈ todo, t.id = k → t.enabled = false) →
      lookupResult m k = none →
      lookupResult (todo.foldl (seqStep cfg env gv sv allSteps) m) k = none := by
  intro todo
  induction todo with
  | nil => intro m k _ h2; exact h2
  | cons t rest ih =>
    intro m k h1 h2
    rw [List.foldl_cons]
    refine ih _ k (fun u hu hid => h1 u (List.mem_cons_of_mem t hu) hid) ?_
    by_cases ht : t.id = k
    · rw [seqStep_disabled _ _ _ _ _ _ _ (h1 t (List.mem_cons_self t rest) ht)]
      exact h2
    · rw [lookupResult_seqStep_ne _ _ _ _ _ _ _ _ ht]
      exact h2

theorem seq_fold_lookup_some (cfg : RunnerConfig) (env : EngineOracles)
    (gv sv : List (String × String)) (allSteps : List WorkflowStep) :
    ∀ (todo : List WorkflowStep) (m : ResultMap) (k : String)
      (v : ExecutionResult),
      (∀ t ∈ todo, t.id ≠ k) →
      lookupResult m k = some v →
      lookupResult (todo.foldl (seqStep cfg env gv sv allSteps) m) k =
        some v := by
  intro todo
  induction todo with
  | nil => intro m k v _ h2; exact h2
  | cons t rest ih =>
    intro m k v h1 h2
    rw [List.foldl_cons]
    refine ih _ k v (fun u hu => h1 u (List.mem_cons_of_mem t hu)) ?_
    rw [lookupResult_seqStep_ne _ _ _ _ _ _ _ _ (h1 t (List.mem_cons_self t rest))]
    exact h2

theorem seqStep_dep_not_met (cfg : RunnerConfig) (env : EngineOracles)
    (gv sv : List (String × String)) (allSteps : List WorkflowStep)
    (m : ResultMap) (step : WorkflowStep)
    (hen : step.enabled = true)
    (hdep : ¬ ((get_dependency_statuses m step.dependencies).all
      (fun st => st = StepStatus.success) = true)) :
    seqStep cfg env gv sv allSteps m step =
      skip_step m step
        ("Skipping " ++ step.name ++ ": Dependencies not successfully met.") := by
  unfold seqStep
  rw [if_pos hen]
  dsimp only
  rw [if_neg hdep]

/-- C7: in the sequential scheduler, a disabled step leaves no recorded
result in the final map, and every enabled step depending on it is recorded
skipped with the dependency reason (the disabled dependency never records a
result, so its status reads as pending, which is not success). -/
theorem c7_disabled_step_excluded (cfg : RunnerConfig) (env : EngineOracles)
    (gv sv : List (String × String)) (steps : List WorkflowStep)
    (hnd : (steps.map (fun s => s.id)).Nodup)
    (d : WorkflowStep) (hd : d ∈ steps) (hdis : d.enabled = false) :
    lookupResult (execute_sequential cfg env gv sv steps) d.id = none ∧
    ∀ s ∈ steps, s.enabled = true → d.id ∈ s.dependencies →
      lookupResult (execute_sequential cfg env gv sv steps) s.id =
        some { step_id := s.id, status := .skipped, start_time := "",
               error_message :=
                 "Skipping " ++ s.name ++ ": Dependencies not successfully met." } := by
  have hinj := List.inj_on_of_nodup_map hnd
  constructor
  · unfold execute_sequential
    refine seq_fold_lookup_none cfg env gv sv steps steps [] d.id ?_ rfl
    intro t ht hid
    have : t = d := hinj ht hd hid
    rw [this]
    exact hdis
  · intro s hs hen hdep
    obtain ⟨pre, post, hsteps⟩ := List.append_of_mem hs
    subst hsteps
    unfold execute_sequential
    rw [List.foldl_append, List.foldl_cons]
    have hm1 : lookupResult
        (pre.foldl (seqStep cfg env gv sv (pre ++ s :: post)) []) d.id =
        none := by
      refine seq_fold_lookup_none cfg env gv sv _ pre [] d.id ?_ rfl
      intro t ht hid
      have htm : t ∈ pre ++ s :: post :=
        List.mem_append.mpr (Or.inl ht)
      have : t = d := hinj htm hd hid
      rw [this]
      exact hdis
    have hdepfail : ¬ ((get_dependency_statuses
        (pre.foldl (seqStep cfg env gv sv (pre ++ s :: post)) [])
        s.dependencies).all (fun st => st = StepStatus.success) = true) := by
      intro hall
      have hmem : StepStatus.pending ∈ get_dependency_statuses
          (pre.foldl (seqStep cfg env gv sv (pre ++ s :: post)) [])
          s.dependencies := by
        unfold get_dependency_statuses
        refine List.mem_map.mpr ⟨d.id, hdep, ?_⟩
        rw [hm1]
      have := List.all_eq_true.mp hall _ hmem
      simp at this
    rw [seqStep_dep_not_met cfg env gv sv (pre ++ s :: post) _ s hen hdepfail]
    have hpost : ∀ t ∈ post, t.id ≠ s.id := by
      have hnd2 := hnd
      rw [List.map_append, List.map_cons] at hnd2
      rcases List.nodup_append.mp hnd2 with ⟨_, hnc, _⟩
      have hnotin : s.id ∉ post.map (fun x => x.id) :=
        (List.nodup_cons.mp hnc).1
      intro t ht heq
      exact hnotin (heq ▸ List.mem_map_of_mem _ ht)
    refine seq_fold_lookup_some cfg env gv sv _ post _ s.id _ hpost ?_
    unfold skip_step recordResult
    rw [lookupResult_cons, if_pos rfl]

/-- Witness for C7: a disabled step d followed by an enabled step e that
depends on it. -/
theorem c7_witness :
    lookupResult (execute_sequential cfgDry trivialOracles [] []
      [dStep, eStep]) dStep.id = none ∧
    lookupResult (execute_sequential cfgDry trivialOracles [] []
      [dStep, eStep]) eStep.id =
      some { step_id := eStep.id, status := .skipped, start_time := "",
             error_message :=
               "Skipping " ++ eStep.name ++ ": Dependencies not successfully met." } := by
  have h := c7_disabled_step_excluded cfgDry trivialOracles [] []
    [dStep, eStep] (by decide) dStep (by decide) (by decide)
  exact ⟨h.1, h.2 eStep (by decide) (by decide) (by decide)⟩
